import Mathlib

/-!
Verification of the local-first data layer.

A shallow embedding, in Lean 4, of the core algorithms of the local-first
synchronization layer: the in-memory query engine (`ListQueriesImpl.query` /
`filterByWhere` / `searchItems` / `sortItems` and `list.factory._matchesFilter`),
the CRUD lifecycle operations (`ListCRUDImpl.createItem` / `updateItem` /
`deleteItem` / `restoreItem`, `list.factory.remove` / `restore`, and the
`collectionFactory.restore` of the RxDB-based revision), the replication push
queue (`ReplicationEngine.enqueueChange` / `processPushQueue` /
`processSinglePushItem`), and the pull path of the replication engine
(`FirestoreReplicationStrategy.pullChanges` and
`ReplicationEngineService._performPull`), together with theorems about them.

Modelling conventions:
* ISO-8601 timestamp strings (always compared via `new Date(...)` or
  lexicographically, both of which agree with chronological order) are
  modelled as `Nat`.
* The dynamic (`Record<string, any>`) part of an item is a finite association
  list from field names to `Value`, a universe covering the primitive
  JavaScript values this code base stores and filters on
  (`null`, `undefined`, numbers, strings, booleans).  Numbers are modelled as
  integers: the code base only stores and compares integral numbers.
* Asynchronous persistence calls are modelled as pure state transitions on an
  explicit store (an association list keyed by item id); an operation that
  performs no storage write returns the store unchanged.
* Fallible operations return `Except`/`Option`; a thrown `Error` is an
  `Except.error` carrying the message the source builds.
-/

/-- Primitive JavaScript values stored in item fields and used in filter
conditions. -/
inductive Value where
  | vnull : Value
  | vundefined : Value
  | vnum : Int → Value
  | vstr : String → Value
  | vbool : Bool → Value
deriving DecidableEq, Repr

/-- A field value is "nullish" when it is `null` or `undefined`
(the `itemValue === null || itemValue === undefined` test). -/
def Value.nullish : Value → Bool
  | .vnull => true
  | .vundefined => true
  | _ => false

/-- JavaScript `Number(x)` conversion on our value universe; `none` is `NaN`.
`Number(null) = 0`, `Number(undefined) = NaN`, booleans map to `0`/`1`, and a
string is trimmed and parsed as a decimal integer (`Number('') = 0`,
non-numeric strings give `NaN`; the code base only stores integral numerals). -/
def jsToNumber : Value → Option Int
  | .vnull => some 0
  | .vundefined => none
  | .vnum n => some n
  | .vbool b => some (if b then 1 else 0)
  | .vstr s => if s.trim = "" then some 0 else s.trim.toInt?

/-- JavaScript `a < b`: two strings compare lexicographically, otherwise both
sides are converted with `Number(...)` and a `NaN` makes the comparison
false. -/
def jsLt (a b : Value) : Bool :=
  match a, b with
  | .vstr x, .vstr y => decide (x < y)
  | _, _ =>
    match jsToNumber a, jsToNumber b with
    | some x, some y => decide (x < y)
    | _, _ => false

/-- JavaScript `a <= b`, same conversion rules as `jsLt`. -/
def jsLe (a b : Value) : Bool :=
  match a, b with
  | .vstr x, .vstr y => decide (x ≤ y)
  | _, _ =>
    match jsToNumber a, jsToNumber b with
    | some x, some y => decide (x ≤ y)
    | _, _ => false

/-- JavaScript strict equality `===` on our primitive universe: equal type and
equal value (no `NaN` inhabits the universe). -/
def jsEq (a b : Value) : Bool := a = b

/-- JavaScript `String.prototype.includes` on char lists: `hasSub s t` is true
iff `t` occurs contiguously in `s` (the empty list occurs in everything). -/
def hasSub (t : List Char) : List Char → Bool
  | [] => t.isEmpty
  | c :: rest => t.isPrefixOf (c :: rest) || hasSub t rest

/-- JavaScript `s.includes(t)`. -/
def jsIncludes (s t : String) : Bool := hasSub t.data s.data

/-- JavaScript `s.startsWith(t)`. -/
def jsStartsWith (s t : String) : Bool := t.data.isPrefixOf s.data

/-- JavaScript `s.endsWith(t)`. -/
def jsEndsWith (s t : String) : Bool := t.data.isSuffixOf s.data

/-- JavaScript `s.toLowerCase()` (ASCII case folding, which covers every
string this code base compares). -/
def jsToLower (s : String) : String := String.mk (s.data.map Char.toLower)

/-- One entry of an item's append-only update log (`UpdatesLogs<T>`):
the `at` timestamp, the `by` actor, and the `before`/`after` diffs. -/
structure LogEntry where
  atTime : Nat
  byActor : String
  before : List (String × Value)
  after : List (String × Value)
deriving DecidableEq, Repr

/-- An `Item<T>`: the domain record (`data`) merged with the control metadata
of `BaseItem` (`_id`, `createdAt`, `createdBy`, `_updatedAt`, `updatesLogs`,
`_deleted`, `_deletedAt`, `deletedBy`). -/
structure Item where
  id : String
  createdAt : Nat
  createdBy : String
  updatedAt : Nat
  updatesLogs : List LogEntry
  deleted : Bool
  deletedAt : Option Nat
  deletedBy : Option String
  data : List (String × Value)
deriving DecidableEq, Repr

/-- Reading `item[fieldKey]` for a domain field: a missing key reads as `undefined`. -/
def itemGet (it : Item) (f : String) : Value :=
  (it.data.lookup f).getD .vundefined

/-- The value attached to one operator key inside a `where` field condition:
either a single primitive value or an array (used by the `in` operator). -/
inductive CondValue where
  | single : Value → CondValue
  | listOf : List Value → CondValue
deriving DecidableEq, Repr

/-- A field condition object: an ordered list of (operator key, value)
entries, as iterated by `for (const operator in fieldCondition)`. -/
abbrev FieldCond := List (String × CondValue)

/-- One operator test of `ListQueriesImpl.filterByWhere` (the body of the
`for (const operator in fieldCondition)` loop, lines 74-108): nullish item
values only ever satisfy `equals`/`not`; otherwise the operator dispatches as
in the `switch`, with `contains`/`startsWith`/`endsWith` comparing
lower-cased strings and an unknown operator matching unconditionally. -/
def opMatch (itemValue : Value) (op : String) (cv : CondValue) : Bool :=
  if itemValue.nullish then
    if op = "equals" then
      match cv with
      | .single c => jsEq itemValue c
      | .listOf _ => false
    else if op = "not" then
      match cv with
      | .single c => !jsEq itemValue c
      | .listOf _ => true
    else false
  else
    if op = "equals" then
      match cv with
      | .single c => jsEq itemValue c
      | .listOf _ => false
    else if op = "in" then
      match cv with
      | .single _ => false
      | .listOf cs => cs.contains itemValue
    else if op = "not" then
      match cv with
      | .single c => !jsEq itemValue c
      | .listOf _ => true
    else if op = "lt" then
      match cv with
      | .single c => jsLt itemValue c
      | .listOf _ => false
    else if op = "lte" then
      match cv with
      | .single c => jsLe itemValue c
      | .listOf _ => false
    else if op = "gt" then
      match cv with
      | .single c => jsLt c itemValue
      | .listOf _ => false
    else if op = "gte" then
      match cv with
      | .single c => jsLe c itemValue
      | .listOf _ => false
    else if op = "contains" then
      match itemValue, cv with
      | .vstr s, .single (.vstr c) => jsIncludes (jsToLower s) (jsToLower c)
      | _, _ => false
    else if op = "startsWith" then
      match itemValue, cv with
      | .vstr s, .single (.vstr c) => jsStartsWith (jsToLower s) (jsToLower c)
      | _, _ => false
    else if op = "endsWith" then
      match itemValue, cv with
      | .vstr s, .single (.vstr c) => jsEndsWith (jsToLower s) (jsToLower c)
      | _, _ => false
    else true

/-- Whether a field condition passes for one item value, including the special
pre-handling of `filterByWhere` for an `undefined` item value (lines 54-71):
an explicit `equals: undefined` passes, any other defined `equals`/`not`
condition rejects, and otherwise the operator loop runs on the `undefined`
value. A defined item value goes straight to the operator loop. -/
def whereFieldPasses (itemValue : Value) (fc : FieldCond) : Bool :=
  if itemValue = .vundefined then
    if fc.lookup "equals" = some (.single .vundefined) then true
    else if (match fc.lookup "equals" with
             | some cv => cv ≠ .single Value.vundefined
             | none => false)
         || (match fc.lookup "not" with
             | some cv => cv ≠ .single Value.vundefined
             | none => false) then false
    else fc.all fun e => opMatch itemValue e.1 e.2
  else fc.all fun e => opMatch itemValue e.1 e.2

/-- The `where` argument: per-field conditions; a field mapped to
`undefined` (`none`) is skipped. -/
abbrev WhereArg := List (String × Option FieldCond)

/-- Whether an item passes a whole `where` clause: every field condition must
pass (`filterByWhere`'s outer `for (const fieldKey in where)` loop). -/
def itemPassesWhere (it : Item) (w : WhereArg) : Bool :=
  w.all fun e =>
    match e.2 with
    | none => true
    | some fc => whereFieldPasses (itemGet it e.1) fc

/-- The function `ListQueriesImpl.filterByWhere`. -/
def filterByWhere (items : List Item) (w : WhereArg) : List Item :=
  items.filter (itemPassesWhere · w)

/-- The `search` argument of `FilterArgs`: named fields and a free-text value. -/
structure SearchArgs where
  fields : List String
  value : String
deriving Repr

/-- Whether an item matches a free-text search: some named field holds a
string whose lower-casing contains the lower-cased search value. -/
def searchPred (s : SearchArgs) (it : Item) : Bool :=
  s.fields.any fun f =>
    match itemGet it f with
    | .vstr v => jsIncludes (jsToLower v) (jsToLower s.value)
    | _ => false

/-- The function `ListQueriesImpl.searchItems`: an empty (lower-cased) search term returns
all items, otherwise items are filtered by `searchPred`. -/
def searchItems (items : List Item) (s : SearchArgs) : List Item :=
  if jsToLower s.value = "" then items else items.filter (searchPred s)

/-- Sort direction of an `orderBy` entry. -/
inductive SortDir where
  | asc : SortDir
  | desc : SortDir
deriving DecidableEq, Repr

/-- The comparator of `ListQueriesImpl.sortItems` (lines 132-147): walk the
`orderBy` keys in order; a nullish value sorts as "lesser", and when the
first key has two nullish values the comparator returns 0 immediately
(skipping the remaining keys, exactly as the early `return 0` does). -/
def cmpItems (orderBy : List (String × SortDir)) (a b : Item) : Int :=
  match orderBy with
  | [] => 0
  | (f, dir) :: rest =>
    let valA := itemGet a f
    let valB := itemGet b f
    if valA.nullish then
      if valB.nullish then 0 else if dir = .asc then -1 else 1
    else if valB.nullish then
      if dir = .asc then 1 else -1
    else if jsLt valA valB then
      if dir = .asc then -1 else 1
    else if jsLt valB valA then
      if dir = .asc then 1 else -1
    else cmpItems rest a b

/-- Insert into a sorted list before the first element that is not strictly
smaller. -/
def insertSorted {α : Type} (le : α → α → Bool) (x : α) : List α → List α
  | [] => [x]
  | y :: ys => if le x y then x :: y :: ys else y :: insertSorted le x ys

/-- Stable insertion sort: an element is placed before every element equal
under `le` that occurred later in the input, matching the stability guarantee
of `Array.prototype.sort`. -/
def sortWith {α : Type} (le : α → α → Bool) (l : List α) : List α :=
  l.foldr (insertSorted le) []

/-- The function `ListQueriesImpl.sortItems`: a stable sort by the comparator. -/
def sortItems (items : List Item) (orderBy : List (String × SortDir)) : List Item :=
  sortWith (fun a b => cmpItems orderBy a b ≤ 0) items

/-- The `FilterArgs<T>` record: `where`, `search`, `orderBy`, `skip`, `take`. -/
structure FilterArgs where
  whereQ : Option WhereArg
  search : Option SearchArgs
  orderBy : Option (List (String × SortDir))
  skip : Option Nat
  take : Option Nat
deriving Repr

/-- The `{items, totalCount}` result of a query. -/
structure QueryResult where
  items : List Item
  totalCount : Nat
deriving DecidableEq, Repr

/-- The function `ListQueriesImpl.query` (lines 14-46): apply `where`, then `search` (only
when a non-empty value and a non-empty field list are given), capture the
count, then sort, then `slice(skip, skip + take)` (or `slice(skip)` when only
a positive `skip` is given). -/
def query (items : List Item) (filterArgs : Option FilterArgs) : QueryResult :=
  let processed := items
  let processed :=
    match filterArgs with
    | none => processed
    | some fa =>
      let p :=
        match fa.whereQ with
        | some w => filterByWhere processed w
        | none => processed
      match fa.search with
      | some s => if s.value ≠ "" && !s.fields.isEmpty then searchItems p s else p
      | none => p
  let countAfterFiltering := processed.length
  let processed :=
    match filterArgs with
    | none => processed
    | some fa =>
      match fa.orderBy with
      | some o => sortItems processed o
      | none => processed
  let processed :=
    match filterArgs with
    | none => processed
    | some fa =>
      let skip := fa.skip.getD 0
      match fa.take with
      | some t => (processed.drop skip).take t
      | none => if skip > 0 then processed.drop skip else processed
  ⟨processed, countAfterFiltering⟩

/-! ## The `list.factory.ts` in-memory filter (`_matchesFilter`) -/

/-- JavaScript `!(Number(a) < Number(b))` is false (i.e. the guard rejects)
exactly when both convert to numbers and `a < b` holds; a `NaN` on either
side makes `Number(a) < Number(b)` false. -/
def numLt (a b : Value) : Bool :=
  match jsToNumber a, jsToNumber b with
  | some x, some y => decide (x < y)
  | _, _ => false

/-- The `!(Number(a) <= Number(b))` analogue of `numLt`. -/
def numLe (a b : Value) : Bool :=
  match jsToNumber a, jsToNumber b with
  | some x, some y => decide (x ≤ y)
  | _, _ => false

/-- A field condition of `list.factory.ts`'s `FilterArgs` in its typed object
form: each operator is an optional field (`none` models an absent or
`undefined` key, which `_matchesFilter` skips via `!== undefined`). -/
structure FactoryCond where
  equals : Option Value := none
  notV : Option Value := none
  inVals : Option (List Value) := none
  lt : Option Value := none
  lte : Option Value := none
  gt : Option Value := none
  gte : Option Value := none
  contains : Option String := none
  startsWith : Option String := none
  endsWith : Option String := none
deriving DecidableEq, Repr

/-- The operator-object branch of `list.factory.ts`'s `_matchesFilter`
(lines 188-199): a sequence of guards each of which may reject the item.
Relational operators go through `Number(...)`; `contains`/`startsWith`/
`endsWith` only constrain string item values and compare **case-sensitively**
(`itemValue.includes(condition.contains)` with no lower-casing). -/
def matchesFilterCond (itemValue : Value) (c : FactoryCond) : Bool :=
  (match c.equals with | some v => jsEq itemValue v | none => true)
  && (match c.notV with | some v => !jsEq itemValue v | none => true)
  && (match c.inVals with | some vs => vs.contains itemValue | none => true)
  && (match c.lt with | some v => numLt itemValue v | none => true)
  && (match c.lte with | some v => numLe itemValue v | none => true)
  && (match c.gt with | some v => numLt v itemValue | none => true)
  && (match c.gte with | some v => numLe v itemValue | none => true)
  && (match itemValue, c.contains with
      | .vstr s, some t => jsIncludes s t
      | _, _ => true)
  && (match itemValue, c.startsWith with
      | .vstr s, some t => jsStartsWith s t
      | _, _ => true)
  && (match itemValue, c.endsWith with
      | .vstr s, some t => jsEndsWith s t
      | _, _ => true)

/-! ## CRUD / lifecycle state transitions

The persistence layer (`LocalForageAdapter` / `IndexedDBManager`) is modelled
as an association list from item id to `Item`; the operations below are the
pure content of `ListCRUDImpl`'s methods (encryption is the identity when no
key is set and is not modelled; the local wall clock `new Date()` is the
explicit parameter `now`). -/

/-- The store keyed by item id. -/
abbrev Store := List (String × Item)

/-- Write (insert or replace) an item under a key, preserving the position of
an existing key (JavaScript keyed stores update in place). -/
def storeSet (st : Store) (k : String) (it : Item) : Store :=
  if (st.lookup k).isSome then
    st.map fun e => if e.1 = k then (k, it) else e
  else st ++ [(k, it)]

/-- JavaScript `{...base, ...patch}` merge: fields of `patch` override fields of `base` in
place, new fields are appended in `patch` order. -/
def setField (l : List (String × Value)) (k : String) (v : Value) : List (String × Value) :=
  if (l.lookup k).isSome then
    l.map fun e => if e.1 = k then (k, v) else e
  else l ++ [(k, v)]

/-- Merge of two partial records by JavaScript object spread. -/
def mergeData (base patch : List (String × Value)) : List (String × Value) :=
  patch.foldl (fun acc e => setField acc e.1 e.2) base

/-- The method `ListCRUDImpl.createItem` (lines 95-120), after file handling: a fresh
item stamped with creation metadata, `_updatedAt = now`, an **empty**
update log and `_deleted = false`. -/
def createItemPure (data : List (String × Value)) (id actor : String) (now : Nat) : Item :=
  { id := id, createdAt := now, createdBy := actor, updatedAt := now,
    updatesLogs := [], deleted := false, deletedAt := none, deletedBy := none,
    data := data }

/-- The method `ListCRUDImpl.updateItem` (lines 128-155) on a found item: merge the
partial payload, bump `_updatedAt` to `now` and append exactly one log entry
(whose `before`/`after` diffs the source leaves empty). -/
def updateItemPure (cur : Item) (patch : List (String × Value)) (actor : String) (now : Nat) : Item :=
  { cur with
    data := mergeData cur.data patch,
    updatedAt := now,
    updatesLogs := cur.updatesLogs ++ [⟨now, actor, [], []⟩] }

/-- The method `ListCRUDImpl.deleteItem` (lines 157-183) on a found item: soft delete —
set the deletion fields, set `_updatedAt = _deletedAt = now` and append
exactly one log entry recording the `_deleted` flip. -/
def deleteItemPure (cur : Item) (actor : String) (now : Nat) : Item :=
  { cur with
    deleted := true, deletedAt := some now, deletedBy := some actor,
    updatedAt := now,
    updatesLogs := cur.updatesLogs ++
      [⟨now, actor, [("_deleted", .vbool false)], [("_deleted", .vbool true)]⟩] }

/-- The restored version of a soft-deleted item built by
`ListCRUDImpl.restoreItem` (lines 193-199): deletion fields cleared,
`_updatedAt` bumped to `now`, one log entry appended. -/
def restoredItemPure (cur : Item) (actor : String) (now : Nat) : Item :=
  { cur with
    deleted := false, deletedAt := none, deletedBy := none,
    updatedAt := now,
    updatesLogs := cur.updatesLogs ++
      [⟨now, actor,
        [("_deleted", .vbool true)],
        [("_deleted", .vbool false)]⟩] }

/-- The method `ListCRUDImpl.restoreItem` (lines 185-214) as a store transition: a
missing id throws (`Except.error`); an item that is **not** soft-deleted is
returned unchanged with **no** storage write (the early `return item`);
a soft-deleted item is restored and written back. -/
def restoreItem (st : Store) (id actor : String) (now : Nat) :
    Except String (Store × Item) :=
  match st.lookup id with
  | none => .error ("Item with id " ++ id ++ " not found for restoration.")
  | some item =>
    if !item.deleted then
      .ok (st, item)
    else
      let restored := restoredItemPure item actor now
      .ok (storeSet st id restored, restored)

/-- The function `list.factory.ts`'s `remove` with `soft = true` (lines 350-372), the pure
item transition: sets `_deleted`, `_deletedAt`, `deletedBy` and
`_updatedAt = _deletedAt`, and appends **no** update-log entry. -/
def factoryRemoveSoft (it : Item) (actor : String) (now : Nat) : Item :=
  { it with
    deleted := true, deletedAt := some now, deletedBy := some actor,
    updatedAt := now }

/-- The function `list.factory.ts`'s `restore` (lines 484-517) as a store transition: a
missing id reports failure (`false`) without writing; a **non-deleted** item
is left untouched and the call reports success (`true`, the
"nothing to restore" warning path); a soft-deleted item has its deletion
fields cleared and `_updatedAt` bumped, with **no** update-log entry. -/
def factoryRestore (st : Store) (id : String) (now : Nat) : Store × Bool :=
  match st.lookup id with
  | none => (st, false)
  | some it =>
    if !it.deleted then (st, true)
    else
      let restored : Item :=
        { it with
          deleted := false, deletedAt := none, deletedBy := none,
          updatedAt := now }
      (storeSet st id restored, true)

/-! The RxDB-based revision (`collectionFactory` in the unnamed source part):
its documents carry `updatedBy` and a typed log. -/

/-- A log entry of the RxDB revision (`LogEntry` of `types.ts`): type, `at`
timestamp, `by` actor, note. -/
structure RxLogEntry where
  ltype : String
  atTime : Nat
  byActor : Option String
  note : Option String
deriving DecidableEq, Repr

/-- A document of the RxDB revision (the `BaseDoc` metadata that
`collectionFactory.restore` touches). -/
structure RxDoc where
  id : String
  deleted : Bool
  deletedAt : Option Nat
  deletedBy : Option String
  updatedAt : Nat
  updatedBy : Option String
  log : List RxLogEntry
deriving DecidableEq, Repr

/-- The function `collectionFactory.restore` (with `middlewareHandler('restore', ...)`) as
a store transition over RxDB documents: a missing id returns `none`; a
**non-deleted** document is returned unchanged with no patch (no write); a
soft-deleted document is patched with cleared deletion fields, bumped
`updatedAt`/`updatedBy` and one appended log entry. -/
def rxRestore (docs : List (String × RxDoc)) (docId : String)
    (restoredBy : Option String) (now : Nat) :
    (List (String × RxDoc)) × Option RxDoc :=
  match docs.lookup docId with
  | none => (docs, none)
  | some doc =>
    if !doc.deleted then (docs, some doc)
    else
      let entry : RxLogEntry := ⟨"restore", now, restoredBy, some "Document restored"⟩
      let patched : RxDoc :=
        { doc with
          deleted := false, deletedAt := none, deletedBy := none,
          updatedAt := now, updatedBy := restoredBy,
          log := doc.log ++ [entry] }
      (if (docs.lookup docId).isSome then
        docs.map fun e => if e.1 = docId then (docId, patched) else e
       else docs ++ [(docId, patched)], some patched)

/-! ## The replication push queue

From `replication.service.ts`: `ReplicationQueueItem`, `enqueueChange`
(lines 205-246), `processPushQueue` (lines 361-392) and
`processSinglePushItem` (lines 395-466).  The remote backend (attachment
upload plus the Firestore write) is modelled as a function from the queue
entry to `Option String`: `none` is confirmed remote success, `some msg` is a
failure whose message is recorded on the entry.  The pass is modelled in its
configured, actively-replicating state (the `_isReplicating()` and
`dbCollection` guards hold throughout). -/

/-- The `action` of a queue entry. -/
inductive QAction where
  | create : QAction
  | update : QAction
  | delete : QAction
deriving DecidableEq, Repr

/-- The `status` of a queue entry. -/
inductive QStatus where
  | pending : QStatus
  | processing : QStatus
  | failed : QStatus
  | completed : QStatus
deriving DecidableEq, Repr

/-- A `ReplicationQueueItem` (queue-entry id, target item id, action, enqueue
time, attempt count, last-attempt time, status, last error; the payload
snapshot and attachment references do not take part in the queue-state
transitions modelled here). -/
structure QueueItem where
  qid : Nat
  itemId : String
  action : QAction
  timestamp : Nat
  attempts : Nat
  lastAttempt : Option Nat
  status : QStatus
  errMsg : Option String
deriving DecidableEq, Repr

/-- The method `enqueueChange` (lines 229-241): durably append one entry with attempt
count 0 and status `pending`. -/
def enqueueChange (queue : List QueueItem) (qid : Nat) (itemId : String)
    (action : QAction) (now : Nat) : List QueueItem :=
  queue ++ [{ qid := qid, itemId := itemId, action := action, timestamp := now,
              attempts := 0, lastAttempt := none, status := .pending,
              errMsg := none }]

/-- The "mark processing" update of `processPushQueue` (line 377): on the
entry with this queue id, set status `processing`, increment the attempt
count and stamp the attempt time. -/
def markProcessing (q : List QueueItem) (i : Nat) (now : Nat) : List QueueItem :=
  q.map fun qi =>
    if qi.qid = i then
      { qi with status := .processing, attempts := qi.attempts + 1,
                lastAttempt := some now }
    else qi

/-- The method `processSinglePushItem` on the live queue `q`, for the snapshot entry
`item` taken from the pass's queue copy: remote success removes the entry
(the `filter` of line 455); remote failure marks it `failed` and records the
error (line 463), leaving it queued for retry. -/
def processSinglePushItem (backend : QueueItem → Option String)
    (q : List QueueItem) (item : QueueItem) : List QueueItem :=
  match backend item with
  | none => q.filter fun qi => qi.qid ≠ item.qid
  | some msg =>
    q.map fun qi =>
      if qi.qid = item.qid then { qi with status := .failed, errMsg := some msg }
      else qi

/-- One pass of `processPushQueue` (lines 372-380): iterate over a copy of
the queue in enqueue order; for each snapshot entry, mark the live entry
`processing` (bumping its attempt count) and then run
`processSinglePushItem` on it. -/
def processPushQueue (backend : QueueItem → Option String) (now : Nat)
    (q : List QueueItem) : List QueueItem :=
  q.foldl (fun acc item =>
    processSinglePushItem backend (markProcessing acc item.qid now) item) q

/-! ## The pull path and the checkpoint

From `FirestoreReplicationStrategy.pullChanges` (lines 42-101) and
`ReplicationEngineService._performPull` of the engine revision with per-item
error recovery (the unnamed source part, lines 133-211).  A remote item whose
local `list.create` / `list.update` call throws is modelled by the predicate
`applyOk` returning `false`; the engine's per-item `try/catch` skips it and
continues.  Timestamps are always present in this model, so the
invalid-timestamp warning branches of `_performPull` are vacuous. -/

/-- A per-collection `Checkpoint` (`{listName, lastPulledAt}`);
`lastPulledAt = none` is the first-sync state. -/
structure Checkpoint where
  listName : String
  lastPulledAt : Option Nat
deriving DecidableEq, Repr

/-- The strategy's `ReplicationPullResult`: the pulled items and the partial
new checkpoint (`none` models the empty `newCheckpoint: {}` object returned
on a pull error, which the engine ignores). -/
structure StrategyPullResult where
  pulledItems : List Item
  newCheckpoint : Option Nat
deriving Repr

/-- The method `FirestoreReplicationStrategy.pullChanges`: select the remote documents
strictly newer than the checkpoint (ordered by `_updatedAt` ascending), track
the latest `_updatedAt` seen while iterating them, and always return
`newCheckpoint = {lastPulledAt: latest}` (the checkpoint value itself when
nothing qualified). -/
def pullChanges (cp : Checkpoint) (remoteDocs : List Item) : StrategyPullResult :=
  let base := cp.lastPulledAt.getD 0
  let pulled := sortWith (fun a b => a.updatedAt ≤ b.updatedAt)
    (remoteDocs.filter fun it => base < it.updatedAt)
  let latest := pulled.foldl (fun acc it => if acc < it.updatedAt then it.updatedAt else acc) base
  { pulledItems := pulled, newCheckpoint := some latest }

/-- State threaded through `_performPull`'s per-item loop: the local store,
the list of items applied locally so far (`itemsAppliedCount` retains their
order), and the id-generation counter of `createItem`. -/
structure PullLoopState where
  store : Store
  applied : List Item
  nextId : Nat
deriving Repr

/-- One iteration of `_performPull`'s loop (lines 157-200): no local
counterpart means `list.create` (which, via `createItemPure`, stamps a fresh
id and the local clock); a strictly newer remote overwrites via
`list.update`; a strictly newer local discards the remote change; equal
timestamps apply the remote data (the documented default).  A thrown apply
(`applyOk r = false`) is caught: the item is skipped and the loop continues. -/
def pullLoopStep (genId : Nat → String) (applyOk : Item → Bool) (now : Nat)
    (st : PullLoopState) (r : Item) : PullLoopState :=
  match st.store.lookup r.id with
  | none =>
    if applyOk r then
      let created := createItemPure r.data (genId st.nextId) "system" now
      { store := storeSet st.store created.id created,
        applied := st.applied ++ [r], nextId := st.nextId + 1 }
    else st
  | some l =>
    if l.updatedAt < r.updatedAt then
      if applyOk r then
        { st with store := storeSet st.store r.id (updateItemPure l r.data "system" now),
                  applied := st.applied ++ [r] }
      else st
    else if r.updatedAt < l.updatedAt then st
    else
      if applyOk r then
        { st with store := storeSet st.store r.id (updateItemPure l r.data "system" now),
                  applied := st.applied ++ [r] }
      else st

/-- The result of one `_performPull` pass. -/
structure PullPassResult where
  store : Store
  applied : List Item
  checkpoint : Checkpoint
deriving Repr

/-- The method `_performPull` (lines 148-206): fetch the strategy's pull result for the
current checkpoint, run the per-item loop, then — whenever the strategy
returned a non-empty `newCheckpoint` — persist
`{...currentCheckpoint, ...newCheckpoint}`, irrespective of which pulled
items were actually applied. -/
def performPull (genId : Nat → String) (applyOk : Item → Bool) (now : Nat)
    (store : Store) (cp : Checkpoint) (remoteDocs : List Item) : PullPassResult :=
  let pr := pullChanges cp remoteDocs
  let final := pr.pulledItems.foldl (pullLoopStep genId applyOk now)
    { store := store, applied := [], nextId := 0 }
  let cp' :=
    match pr.newCheckpoint with
    | some t => { cp with lastPulledAt := some t }
    | none => cp
  { store := final.store, applied := final.applied, checkpoint := cp' }

/-! ## The conflict decision of the pull path

The per-item branch of `_performPull` (`ReplicationEngine.ts` lines 124-138)
distinguishes four outcomes; `pullItemAction` is that branch structure and
`pullItemResult` records which version's content the branch applies locally. -/

/-- The outcome of processing one pulled remote item against the local
store. -/
inductive PullAction where
  | createdLocal : PullAction
  | appliedRemote : PullAction
  | keptLocal : PullAction
  | appliedRemoteTie : PullAction
deriving DecidableEq, Repr

/-- The branch taken by `_performPull` for one pulled item: create when no
local counterpart exists; otherwise compare `_updatedAt` — remote strictly
newer applies the remote, local strictly newer keeps the local, equal
timestamps apply the remote as the documented tie-break default. -/
def pullItemAction (localItem : Option Item) (remoteItem : Item) : PullAction :=
  match localItem with
  | none => .createdLocal
  | some l =>
    if l.updatedAt < remoteItem.updatedAt then .appliedRemote
    else if remoteItem.updatedAt < l.updatedAt then .keptLocal
    else .appliedRemoteTie

/-- The version whose content the branch leaves in the local store: the
remote item on `createdLocal` / `appliedRemote` / `appliedRemoteTie`, the
unchanged local item on `keptLocal`. -/
def pullItemResult (localItem : Option Item) (remoteItem : Item) : Item :=
  match localItem with
  | none => remoteItem
  | some l =>
    match pullItemAction (some l) remoteItem with
    | .keptLocal => l
    | _ => remoteItem

/-! ## Mutation sequences (create / update / soft-delete / restore)

The lifecycle mutations of both CRUD implementations as a single operation
type, so that finite sequences of them can be analysed.  Each operation is
applied at an explicit wall-clock time `t` (`new Date()` at the moment the
mutation runs). -/

/-- One lifecycle mutation applied to an existing item: `ListCRUDImpl`'s
`updateItem` / `deleteItem` (soft) / `restoreItem`, and `list.factory.ts`'s
soft `remove` / `restore`. -/
inductive MutOp where
  | update : List (String × Value) → String → MutOp
  | softDelete : String → MutOp
  | restore : String → MutOp
  | factoryRemove : String → MutOp
  | factoryRestoreOp : MutOp
deriving Repr

/-- Apply one lifecycle mutation at time `t`.  `restoreItem` and
`list.factory.restore` leave a non-deleted item untouched (their early-return
branches). -/
def applyMut (cur : Item) : MutOp → Nat → Item
  | .update p a, t => updateItemPure cur p a t
  | .softDelete a, t => deleteItemPure cur a t
  | .restore a, t => if cur.deleted then restoredItemPure cur a t else cur
  | .factoryRemove a, t => factoryRemoveSoft cur a t
  | .factoryRestoreOp, t =>
    if cur.deleted then
      { cur with deleted := false, deletedAt := none, deletedBy := none,
                 updatedAt := t }
    else cur

/-- How many update-log entries one mutation appends: exactly one for
`ListCRUDImpl`'s `updateItem`/`deleteItem`/effective `restoreItem`, none for
a `restoreItem` of a non-deleted item and none at all for `list.factory.ts`'s
`remove`/`restore` (which never touch `updatesLogs`). -/
def logAppendCount : MutOp → Item → Nat
  | .update _ _, _ => 1
  | .softDelete _, _ => 1
  | .restore _, it => if it.deleted then 1 else 0
  | .factoryRemove _, _ => 0
  | .factoryRestoreOp, _ => 0

/-- The trace of item states along a mutation sequence, starting from the
initial item. -/
def mutTrace (it : Item) (ops : List (MutOp × Nat)) : List Item :=
  ops.scanl (fun cur p => applyMut cur p.1 p.2) it

/-! ## The spec-side query pipeline

`querySpec` is transcribed from the specification's own description of the
query engine (apply filters and search; capture the count pre-sort and
pre-page; stable sort; apply skip then take) to be compared with the `query`
definition embedded from the source. -/

/-- Whether one item passes the `where` filter and the (active) free-text
search of a query. -/
def matchesQueryFilter (fa : FilterArgs) (it : Item) : Bool :=
  (match fa.whereQ with
   | some w => itemPassesWhere it w
   | none => true)
  && (match fa.search with
      | some s => if s.value ≠ "" && !s.fields.isEmpty then searchPred s it else true
      | none => true)

/-- The query pipeline as the specification words it: filter, count, stable
sort, drop `skip`, keep at most `take` (all items when no `take` is given). -/
def querySpec (items : List Item) (fa : FilterArgs) : QueryResult :=
  let filtered := items.filter (matchesQueryFilter fa)
  let sorted := sortItems filtered (fa.orderBy.getD [])
  ⟨(sorted.drop (fa.skip.getD 0)).take (fa.take.getD sorted.length),
   filtered.length⟩

/-- The operator keys `filterByWhere` knows. -/
def knownOps : List String :=
  ["equals", "in", "not", "lt", "lte", "gt", "gte",
   "contains", "startsWith", "endsWith"]

/-- A concrete 100-item collection: item `i` carries the numeric field
`n = i`. -/
def c3Items : List Item :=
  (List.range 100).map fun i =>
    { id := toString i, createdAt := 0, createdBy := "u", updatedAt := 0,
      updatesLogs := [], deleted := false, deletedAt := none,
      deletedBy := none, data := [("n", .vnum i)] }

/-- A filter matching exactly the 37 items with `n < 37`, with `take = 10`. -/
def c3Args : FilterArgs :=
  { whereQ := some [("n", some [("lt", .single (.vnum 37))])],
    search := none, orderBy := none, skip := none, take := some 10 }

/-! # Theorems -/

/-! ## Helper lemmas -/

theorem jsToLower_ne_empty {s : String} (h : s ≠ "") : jsToLower s ≠ "" := by
  intro hc
  apply h
  have h1 : s.data.map Char.toLower = [] := by
    have := congrArg String.data hc
    simpa [jsToLower] using this
  have hd : s.data = [] := by simpa using h1
  cases s
  simp_all

theorem length_insertSorted {α : Type} (le : α → α → Bool) (x : α) (l : List α) :
    (insertSorted le x l).length = l.length + 1 := by
  induction l with
  | nil => rfl
  | cons y ys ih =>
    by_cases h : le x y = true <;> simp [insertSorted, h, ih]

theorem length_sortWith {α : Type} (le : α → α → Bool) (l : List α) :
    (sortWith le l).length = l.length := by
  unfold sortWith
  induction l with
  | nil => rfl
  | cons y ys ih => simp [length_insertSorted, ih]

theorem sortWith_of_true {α : Type} (le : α → α → Bool)
    (hle : ∀ a b, le a b = true) (l : List α) : sortWith le l = l := by
  unfold sortWith
  induction l with
  | nil => rfl
  | cons y ys ih =>
    simp only [List.foldr_cons, ih]
    cases ys with
    | nil => rfl
    | cons z zs => simp [insertSorted, hle]

theorem cmpItems_nil (a b : Item) : cmpItems [] a b = 0 := rfl

theorem sortItems_nil_orderBy (l : List Item) : sortItems l [] = l := by
  unfold sortItems
  exact sortWith_of_true _ (fun a b => by simp [cmpItems_nil]) l

theorem length_sortItems (l : List Item) (o : List (String × SortDir)) :
    (sortItems l o).length = l.length := length_sortWith _ _

/-- C1: for every pulled remote item with a local counterpart
(local `_updatedAt = t1`, remote `_updatedAt = t2`), the per-item branch of
`_performPull` applies the remote version iff `t2 > t1`, keeps the unchanged
local version iff `t2 < t1`, and applies the remote version by the documented
tie-break iff `t2 = t1`; the resulting local content is the remote item
exactly on the two remote-applying outcomes and the unchanged local item on
the keep-local outcome. -/
theorem pull_conflict_resolution (l r : Item) :
    (pullItemAction (some l) r = .appliedRemote ↔ l.updatedAt < r.updatedAt)
    ∧ (pullItemAction (some l) r = .keptLocal ↔ r.updatedAt < l.updatedAt)
    ∧ (pullItemAction (some l) r = .appliedRemoteTie ↔ r.updatedAt = l.updatedAt)
    ∧ (pullItemAction (some l) r ≠ .keptLocal → pullItemResult (some l) r = r)
    ∧ (pullItemAction (some l) r = .keptLocal → pullItemResult (some l) r = l) := by
  unfold pullItemResult pullItemAction
  rcases lt_trichotomy l.updatedAt r.updatedAt with h | h | h
  · simp [h, lt_asymm h, ne_of_gt h]
  · simp [h, lt_irrefl]
  · simp [h, lt_asymm h, not_lt_of_gt h, ne_of_lt h]

theorem pull_conflict_resolution_witness :
    pullItemResult (some ⟨"a", 0, "u", 1, [], false, none, none, []⟩)
        ⟨"a", 0, "u", 2, [], false, none, none, []⟩
      = ⟨"a", 0, "u", 2, [], false, none, none, []⟩ :=
  (pull_conflict_resolution ⟨"a", 0, "u", 1, [], false, none, none, []⟩
    ⟨"a", 0, "u", 2, [], false, none, none, []⟩).2.2.2.1 (by decide)

/-- C6 counterexample: calling `restoreItem` on an existing item that is not
soft-deleted does **not** surface an InvalidState error — it returns `.ok`
with the unchanged item (the source logs a warning and returns the item). -/
theorem restore_non_deleted_is_not_error :
    restoreItem [("a", ⟨"a", 0, "u", 3, [], false, none, none, []⟩)] "a" "u" 9
      = .ok ([("a", ⟨"a", 0, "u", 3, [], false, none, none, []⟩)],
             ⟨"a", 0, "u", 3, [], false, none, none, []⟩) := by
  rfl

/-- C6 (amended): `restoreItem` succeeds on an existing soft-deleted item,
clearing the deletion fields and bumping `_updatedAt`; a missing id surfaces
a synchronous error; and an existing item that is **not** soft-deleted is a
silent no-op returning the unchanged item — not an error. -/
theorem restore_item_characterization (st : Store) (id actor : String) (now : Nat) :
    (st.lookup id = none →
      restoreItem st id actor now
        = .error ("Item with id " ++ id ++ " not found for restoration."))
    ∧ (∀ it, st.lookup id = some it → it.deleted = false →
        restoreItem st id actor now = .ok (st, it))
    ∧ (∀ it, st.lookup id = some it → it.deleted = true →
        restoreItem st id actor now
          = .ok (storeSet st id (restoredItemPure it actor now),
                 restoredItemPure it actor now)
        ∧ (restoredItemPure it actor now).deleted = false
        ∧ (restoredItemPure it actor now).deletedAt = none
        ∧ (restoredItemPure it actor now).deletedBy = none
        ∧ (restoredItemPure it actor now).updatedAt = now) := by
  refine ⟨?_, ?_, ?_⟩
  · intro h
    simp [restoreItem, h]
  · intro it h hd
    simp [restoreItem, h, hd]
  · intro it h hd
    exact ⟨by simp [restoreItem, h, hd], rfl, rfl, rfl, rfl⟩

theorem restore_item_characterization_witness :
    restoreItem [("a", ⟨"a", 0, "u", 3, [], true, some 2, some "x", []⟩)] "a" "u" 9
      = .ok (storeSet [("a", ⟨"a", 0, "u", 3, [], true, some 2, some "x", []⟩)] "a"
               (restoredItemPure ⟨"a", 0, "u", 3, [], true, some 2, some "x", []⟩ "u" 9),
             restoredItemPure ⟨"a", 0, "u", 3, [], true, some 2, some "x", []⟩ "u" 9) :=
  ((restore_item_characterization
      [("a", ⟨"a", 0, "u", 3, [], true, some 2, some "x", []⟩)] "a" "u" 9).2.2
    ⟨"a", 0, "u", 3, [], true, some 2, some "x", []⟩ rfl rfl).1

/-- C10: restoring an existing item whose `_deleted` flag is false is a
complete no-op in all three implementations: `ListCRUDImpl.restoreItem`,
`list.factory.restore` and the RxDB `collectionFactory.restore` each return
the item with every field unchanged (so no update-log entry and no
`_updatedAt` bump) and leave the store untouched (no storage write). -/
theorem restore_non_deleted_frame
    (st : Store) (id actor : String) (now : Nat) (it : Item)
    (h1 : st.lookup id = some it) (h2 : it.deleted = false)
    (st2 : Store) (id2 : String) (now2 : Nat) (it2 : Item)
    (h3 : st2.lookup id2 = some it2) (h4 : it2.deleted = false)
    (docs : List (String × RxDoc)) (docId : String) (rb : Option String)
    (now3 : Nat) (d : RxDoc)
    (h5 : docs.lookup docId = some d) (h6 : d.deleted = false) :
    restoreItem st id actor now = .ok (st, it)
    ∧ factoryRestore st2 id2 now2 = (st2, true)
    ∧ rxRestore docs docId rb now3 = (docs, some d) := by
  refine ⟨?_, ?_, ?_⟩
  · simp [restoreItem, h1, h2]
  · simp [factoryRestore, h3, h4]
  · simp [rxRestore, h5, h6]

theorem restore_non_deleted_frame_witness :
    restoreItem [("p", ⟨"p", 0, "u", 4, [], false, none, none, []⟩)] "p" "u" 11
      = .ok ([("p", ⟨"p", 0, "u", 4, [], false, none, none, []⟩)],
             ⟨"p", 0, "u", 4, [], false, none, none, []⟩)
    ∧ factoryRestore [("p", ⟨"p", 0, "u", 4, [], false, none, none, []⟩)] "p" 11
      = ([("p", ⟨"p", 0, "u", 4, [], false, none, none, []⟩)], true)
    ∧ rxRestore [("p", ⟨"p", false, none, none, 4, none, []⟩)] "p" (some "u") 11
      = ([("p", ⟨"p", false, none, none, 4, none, []⟩)],
         some ⟨"p", false, none, none, 4, none, []⟩) :=
  restore_non_deleted_frame
    [("p", ⟨"p", 0, "u", 4, [], false, none, none, []⟩)] "p" "u" 11
    ⟨"p", 0, "u", 4, [], false, none, none, []⟩ rfl rfl
    [("p", ⟨"p", 0, "u", 4, [], false, none, none, []⟩)] "p" 11
    ⟨"p", 0, "u", 4, [], false, none, none, []⟩ rfl rfl
    [("p", ⟨"p", false, none, none, 4, none, []⟩)] "p" (some "u") 11
    ⟨"p", false, none, none, 4, none, []⟩ rfl rfl

/-- C4: evaluation of the pull pass at a failing input.  Two remote items
(ids `a`, `b`, timestamps 5 and 10) are pulled against local counterparts
with timestamps 1 and 2; applying item `b` locally throws (`applyOk` is
false for it) and the per-item catch skips it.  The engine nevertheless
persists the strategy checkpoint `lastPulledAt = 10`, although the only item
actually applied has timestamp 5 — the checkpoint advances past the failed
item's timestamp, so item `b`'s change can never be re-pulled. -/
theorem checkpoint_advances_past_failed_item :
    (performPull (fun n => toString n) (fun it => it.id ≠ "b") 20
        [("a", ⟨"a", 0, "u", 1, [], false, none, none, []⟩),
         ("b", ⟨"b", 0, "u", 2, [], false, none, none, []⟩)]
        ⟨"docs", some 0⟩
        [⟨"a", 0, "u", 5, [], false, none, none, []⟩,
         ⟨"b", 0, "u", 10, [], false, none, none, []⟩]).checkpoint.lastPulledAt
      = some 10
    ∧ (performPull (fun n => toString n) (fun it => it.id ≠ "b") 20
        [("a", ⟨"a", 0, "u", 1, [], false, none, none, []⟩),
         ("b", ⟨"b", 0, "u", 2, [], false, none, none, []⟩)]
        ⟨"docs", some 0⟩
        [⟨"a", 0, "u", 5, [], false, none, none, []⟩,
         ⟨"b", 0, "u", 10, [], false, none, none, []⟩]).applied.map Item.updatedAt
      = [5] := by
  constructor <;> rfl


theorem opMatch_contains (s t : String) :
    opMatch (.vstr s) "contains" (.single (.vstr t))
      = jsIncludes (jsToLower s) (jsToLower t) := rfl

theorem opMatch_startsWith (s t : String) :
    opMatch (.vstr s) "startsWith" (.single (.vstr t))
      = jsStartsWith (jsToLower s) (jsToLower t) := rfl

theorem opMatch_endsWith (s t : String) :
    opMatch (.vstr s) "endsWith" (.single (.vstr t))
      = jsEndsWith (jsToLower s) (jsToLower t) := rfl

theorem whereFieldPasses_vstr (s : String) (fc : FieldCond) :
    whereFieldPasses (.vstr s) fc = fc.all fun e => opMatch (.vstr s) e.1 e.2 := by
  simp [whereFieldPasses]

theorem itemPassesWhere_single (it : Item) (f : String) (fc : FieldCond) :
    itemPassesWhere it [(f, some fc)] = whereFieldPasses (itemGet it f) fc := by
  simp [itemPassesWhere]

/-- C7 counterexample: `list.factory.ts`'s `_matchesFilter` compares
`contains` case-sensitively — the item value `"Hello"` does not satisfy
`contains: "hello"` although its lower-casing contains the lower-cased
condition value, contradicting the claim that every `contains` condition
matches case-insensitively. -/
theorem factory_contains_case_sensitive :
    matchesFilterCond (.vstr "Hello") { contains := some "hello" } = false
    ∧ jsIncludes (jsToLower "Hello") (jsToLower "hello") = true := by
  constructor <;> rfl

/-- C7 (amended): in `ListQueriesImpl.filterByWhere` a
`contains`/`startsWith`/`endsWith` condition on a string field value matches
iff the lower-cased field value contains / starts with / ends with the
lower-cased condition value; in `list.factory.ts`'s `_matchesFilter` the same
operators compare the raw strings case-sensitively. -/
theorem string_ops_case_sensitivity (it : Item) (f s t : String)
    (h : itemGet it f = .vstr s) :
    (itemPassesWhere it [(f, some [("contains", .single (.vstr t))])]
      = jsIncludes (jsToLower s) (jsToLower t))
    ∧ (itemPassesWhere it [(f, some [("startsWith", .single (.vstr t))])]
      = jsStartsWith (jsToLower s) (jsToLower t))
    ∧ (itemPassesWhere it [(f, some [("endsWith", .single (.vstr t))])]
      = jsEndsWith (jsToLower s) (jsToLower t))
    ∧ (matchesFilterCond (.vstr s) { contains := some t } = jsIncludes s t)
    ∧ (matchesFilterCond (.vstr s) { startsWith := some t } = jsStartsWith s t)
    ∧ (matchesFilterCond (.vstr s) { endsWith := some t } = jsEndsWith s t) := by
  refine ⟨?_, ?_, ?_, ?_, ?_, ?_⟩
  · rw [itemPassesWhere_single, h, whereFieldPasses_vstr]
    simp [opMatch_contains]
  · rw [itemPassesWhere_single, h, whereFieldPasses_vstr]
    simp [opMatch_startsWith]
  · rw [itemPassesWhere_single, h, whereFieldPasses_vstr]
    simp [opMatch_endsWith]
  · simp [matchesFilterCond]
  · simp [matchesFilterCond]
  · simp [matchesFilterCond]

theorem string_ops_case_sensitivity_witness :
    itemPassesWhere ⟨"a", 0, "u", 0, [], false, none, none, [("name", .vstr "Hello")]⟩
        [("name", some [("contains", .single (.vstr "ELL"))])]
      = jsIncludes (jsToLower "Hello") (jsToLower "ELL") :=
  (string_ops_case_sensitivity
    ⟨"a", 0, "u", 0, [], false, none, none, [("name", .vstr "Hello")]⟩
    "name" "Hello" "ELL" rfl).1

/-- C9: an operator key outside the known set
(`equals`/`in`/`not`/`lt`/`lte`/`gt`/`gte`/`contains`/`startsWith`/`endsWith`)
falls into `filterByWhere`'s `default` branch and matches unconditionally for
any item value that is neither `null` nor `undefined`; consequently adding
such a condition entry never changes whether the item passes the field's
condition, so it never excludes such an item from the query result. -/
theorem unknown_operator_matches (v : Value) (op : String) (cv : CondValue)
    (fc : FieldCond)
    (h1 : v ≠ .vnull) (h2 : v ≠ .vundefined) (h3 : op ∉ knownOps) :
    opMatch v op cv = true
    ∧ whereFieldPasses v ((op, cv) :: fc) = whereFieldPasses v fc := by
  simp only [knownOps, List.mem_cons, List.not_mem_nil, or_false, not_or] at h3
  obtain ⟨e1, e2, e3, e4, e5, e6, e7, e8, e9, e10⟩ := h3
  have hnl : Value.nullish v = false := by
    cases v <;> simp_all [Value.nullish]
  have hop : opMatch v op cv = true := by
    unfold opMatch
    rw [hnl]
    simp only [Bool.false_eq_true, if_false]
    rw [if_neg e1, if_neg e3, if_neg e2, if_neg e4, if_neg e5, if_neg e6,
        if_neg e7, if_neg e8, if_neg e9, if_neg e10]
  refine ⟨hop, ?_⟩
  unfold whereFieldPasses
  rw [if_neg h2, if_neg h2, List.all_cons, hop, Bool.true_and]

theorem unknown_operator_matches_witness :
    opMatch (.vnum 3) "between" (.single (.vnum 7)) = true :=
  (unknown_operator_matches (.vnum 3) "between" (.single (.vnum 7)) []
    (by decide) (by decide) (by decide)).1

theorem applyMut_updatedAt_bounds (cur : Item) (o : MutOp) (t : Nat)
    (h : cur.updatedAt ≤ t) :
    cur.updatedAt ≤ (applyMut cur o t).updatedAt
    ∧ (applyMut cur o t).updatedAt ≤ t := by
  cases o with
  | update p a => exact ⟨h, le_refl t⟩
  | softDelete a => exact ⟨h, le_refl t⟩
  | restore a =>
    by_cases hd : cur.deleted
    · simp [applyMut, hd, restoredItemPure, h]
    · simp [applyMut, hd, h]
  | factoryRemove a => exact ⟨h, le_refl t⟩
  | factoryRestoreOp =>
    by_cases hd : cur.deleted
    · simp [applyMut, hd, h]
    · simp [applyMut, hd, h]

/-- C5 counterexample: `list.factory.ts`'s soft `remove` appends **no**
update-log entry — on an item with an empty log the log stays empty,
contradicting the claim that each create/update/soft-delete/restore mutation
appends exactly one entry. -/
theorem factory_soft_remove_appends_no_log :
    (factoryRemoveSoft ⟨"a", 0, "u", 0, [], false, none, none, []⟩ "u" 5).updatesLogs.length
      ≠ (⟨"a", 0, "u", 0, [], false, none, none, []⟩ : Item).updatesLogs.length + 1 := by
  decide

/-- C5 (amended): along every finite sequence of lifecycle mutations whose
wall-clock times are non-decreasing (and start no earlier than the item's
`_updatedAt`), `_updatedAt` is monotonically non-decreasing at every step;
and the number of update-log entries appended by one mutation is exactly one
for `ListCRUDImpl`'s `updateItem` / soft `deleteItem` / effective
`restoreItem`, and exactly zero for a `restoreItem` of a non-deleted item and
for `list.factory.ts`'s soft `remove` and `restore` (which never touch the
log); `createItem` initializes the log empty. -/
theorem mutation_sequence_monotone_log (it : Item) (ops : List (MutOp × Nat))
    (hmono : List.Chain (fun a b => a ≤ b) it.updatedAt (ops.map Prod.snd)) :
    List.Chain' (fun a b => a ≤ b) ((mutTrace it ops).map Item.updatedAt)
    ∧ (∀ (cur : Item) (o : MutOp) (t : Nat),
        (applyMut cur o t).updatesLogs.length
          = cur.updatesLogs.length + logAppendCount o cur)
    ∧ (∀ (d : List (String × Value)) (i a : String) (t : Nat),
        (createItemPure d i a t).updatesLogs.length = 0) := by
  refine ⟨?_, ?_, ?_⟩
  · induction ops generalizing it with
    | nil => simp [mutTrace]
    | cons p rest ih =>
      obtain ⟨o, t⟩ := p
      simp only [List.map_cons] at hmono
      rw [List.chain_cons] at hmono
      obtain ⟨h1, h2⟩ := hmono
      have hb := applyMut_updatedAt_bounds it o t h1
      have hchain : List.Chain (fun a b => a ≤ b)
          (applyMut it o t).updatedAt (rest.map Prod.snd) := by
        cases hrest : rest.map Prod.snd with
        | nil => exact List.Chain.nil
        | cons t2 ts =>
          rw [hrest] at h2
          rw [List.chain_cons] at h2
          exact List.Chain.cons (le_trans hb.2 h2.1) h2.2
      have ihres := ih (applyMut it o t) hchain
      have hunfold : mutTrace it ((o, t) :: rest)
          = it :: mutTrace (applyMut it o t) rest := rfl
      rw [hunfold, List.map_cons]
      cases rest with
      | nil =>
        exact List.chain'_cons.mpr ⟨hb.1, List.chain'_singleton _⟩
      | cons q qs =>
        have hq : mutTrace (applyMut it o t) (q :: qs)
            = (applyMut it o t)
              :: mutTrace (applyMut (applyMut it o t) q.1 q.2) qs := rfl
        rw [hq, List.map_cons]
        rw [hq, List.map_cons] at ihres
        exact List.chain'_cons.mpr ⟨hb.1, ihres⟩
  · intro cur o t
    cases o with
    | update p a => simp [applyMut, updateItemPure, logAppendCount]
    | softDelete a => simp [applyMut, deleteItemPure, logAppendCount]
    | restore a =>
      by_cases hd : cur.deleted <;>
        simp [applyMut, hd, restoredItemPure, logAppendCount]
    | factoryRemove a => simp [applyMut, factoryRemoveSoft, logAppendCount]
    | factoryRestoreOp =>
      by_cases hd : cur.deleted <;> simp [applyMut, hd, logAppendCount]
  · intro d i a t
    simp [createItemPure]

theorem mutation_sequence_monotone_log_witness :
    List.Chain' (fun a b => a ≤ b)
      ((mutTrace ⟨"a", 0, "u", 1, [], false, none, none, []⟩
          [(.softDelete "u", 3), (.restore "u", 5), (.update [] "u", 5)]).map
        Item.updatedAt) :=
  (mutation_sequence_monotone_log ⟨"a", 0, "u", 1, [], false, none, none, []⟩
    [(.softDelete "u", 3), (.restore "u", 5), (.update [] "u", 5)]
    (by simp [List.chain_cons])).1

theorem filterByWhere_eq_filter (items : List Item) (w : WhereArg) :
    filterByWhere items w = items.filter fun it => itemPassesWhere it w := rfl

theorem searchItems_eq_filter (items : List Item) (s : SearchArgs)
    (hv : s.value ≠ "") : searchItems items s = items.filter (searchPred s) := by
  unfold searchItems
  rw [if_neg (jsToLower_ne_empty hv)]

theorem paginate_take_none (l : List Item) (k : Nat) :
    (if k > 0 then l.drop k else l) = (l.drop k).take l.length := by
  have hlen : (l.drop k).length ≤ l.length := by simp
  rw [List.take_of_length_le hlen]
  cases k with
  | zero => simp
  | succ n => simp

theorem query_stages (items : List Item) (fa : FilterArgs) :
    query items (some fa) =
      ⟨((sortItems (items.filter (matchesQueryFilter fa)) (fa.orderBy.getD [])).drop
          (fa.skip.getD 0)).take
        (fa.take.getD (items.filter (matchesQueryFilter fa)).length),
       (items.filter (matchesQueryFilter fa)).length⟩ := by
  obtain ⟨w, s, o, sk, tk⟩ := fa
  have hfilt :
      (match s with
       | some s' =>
         if s'.value ≠ "" && !s'.fields.isEmpty then
           searchItems (match w with
             | some w' => filterByWhere items w'
             | none => items) s'
         else (match w with
             | some w' => filterByWhere items w'
             | none => items)
       | none => (match w with
             | some w' => filterByWhere items w'
             | none => items))
      = items.filter (matchesQueryFilter ⟨w, s, o, sk, tk⟩) := by
    cases s with
    | none =>
      cases w with
      | none =>
        symm
        rw [List.filter_eq_self]
        intro a _
        simp [matchesQueryFilter]
      | some w' =>
        simp only [filterByWhere_eq_filter]
        refine List.filter_congr fun it _ => ?_
        simp [matchesQueryFilter]
    | some s' =>
      by_cases hv0 : s'.value = ""
      · have hgf : (s'.value ≠ "" && !s'.fields.isEmpty) = false := by
          simp [hv0]
        simp only [hgf, Bool.false_eq_true, if_false]
        cases w with
        | none =>
          symm
          rw [List.filter_eq_self]
          intro a _
          simp [matchesQueryFilter, hv0]
        | some w' =>
          simp only [filterByWhere_eq_filter]
          refine List.filter_congr fun it _ => ?_
          simp [matchesQueryFilter, hv0]
      · by_cases hf0 : s'.fields = []
        · have hgf : (s'.value ≠ "" && !s'.fields.isEmpty) = false := by
            simp [hf0]
          simp only [hgf, Bool.false_eq_true, if_false]
          cases w with
          | none =>
            symm
            rw [List.filter_eq_self]
            intro a _
            simp [matchesQueryFilter, hf0]
          | some w' =>
            simp only [filterByWhere_eq_filter]
            refine List.filter_congr fun it _ => ?_
            simp [matchesQueryFilter, hf0]
        · have hgt : (s'.value ≠ "" && !s'.fields.isEmpty) = true := by
            simp [hv0, hf0]
          simp only [hgt, if_true]
          cases w with
          | none =>
            rw [searchItems_eq_filter _ _ hv0]
            refine List.filter_congr fun it _ => ?_
            simp [matchesQueryFilter, hv0, hf0]
          | some w' =>
            dsimp only
            rw [filterByWhere_eq_filter, searchItems_eq_filter _ _ hv0,
              List.filter_filter]
            refine List.filter_congr fun it _ => ?_
            simp only [matchesQueryFilter]
            rw [if_pos (by simp [hv0, hf0])]
            exact Bool.and_comm _ _
  show query items (some ⟨w, s, o, sk, tk⟩) = _
  unfold query
  dsimp only
  rw [hfilt]
  cases o with
  | none =>
    dsimp only [Option.getD]
    rw [sortItems_nil_orderBy]
    cases tk with
    | some t => rfl
    | none =>
      dsimp only [Option.getD]
      rw [paginate_take_none]
  | some ob =>
    dsimp only [Option.getD]
    cases tk with
    | some t => rfl
    | none =>
      dsimp only [Option.getD]
      rw [paginate_take_none, length_sortItems]

/-- C3: `query` implements exactly the specified pipeline — `totalCount` is
the number of items passing the `where` filter and the search, captured
before sorting and pagination, and the returned items are the filtered,
stably-sorted items after dropping `skip` elements and keeping at most
`take`; in particular, querying the 100-item collection `c3Items` with a
filter matching 37 items and `take = 10` returns 10 items with
`totalCount = 37`. -/
theorem query_refines_spec :
    (∀ (items : List Item) (fa : FilterArgs),
      query items (some fa) = querySpec items fa)
    ∧ (query c3Items (some c3Args)).totalCount = 37
    ∧ (query c3Items (some c3Args)).items.length = 10 := by
  refine ⟨?_, ?_, ?_⟩
  · intro items fa
    rw [query_stages]
    unfold querySpec
    dsimp only
    rw [length_sortItems]
  · decide
  · decide

theorem map_onId_qid (q : List QueueItem) (j : Nat) (f : QueueItem → QueueItem)
    (hf : ∀ x, (f x).qid = x.qid) :
    ((q.map fun x => if x.qid = j then f x else x).map fun y => y.qid)
      = q.map fun y => y.qid := by
  rw [List.map_map]
  refine List.map_congr_left fun a _ => ?_
  by_cases h : a.qid = j <;> simp [Function.comp, h, hf]

theorem markProcessing_map_qid (q : List QueueItem) (j now : Nat) :
    ((markProcessing q j now).map fun y => y.qid) = q.map fun y => y.qid :=
  map_onId_qid q j _ fun _ => rfl

theorem filter_qid_map_onId (q : List QueueItem) (j i : Nat)
    (f : QueueItem → QueueItem) (hf : ∀ x, (f x).qid = x.qid) :
    ((q.map fun x => if x.qid = j then f x else x).filter fun y => y.qid = i)
      = if i = j then (q.filter fun y => y.qid = i).map f
        else q.filter fun y => y.qid = i := by
  induction q with
  | nil => simp
  | cons a tl ih =>
    by_cases hij : i = j
    · subst hij
      by_cases hai : a.qid = i <;> simp [hai, hf, ih]
    · by_cases hai : a.qid = i
      · have haj : ¬ a.qid = j := fun hc => hij (hai ▸ hc ▸ rfl)
        simp [hai, haj, ih, hij]
      · by_cases haj : a.qid = j
        · have hfa : ¬ (f a).qid = i := by rw [hf]; exact hai
          have hji : ¬ j = i := fun hc => hij hc.symm
          simp [List.filter_cons, hai, haj, hf, ih, hij, hfa, hji]
        · simp [hai, haj, ih, hij]

theorem filter_qid_filter_ne (q : List QueueItem) (j i : Nat) (hij : ¬ i = j) :
    ((q.filter fun y => y.qid ≠ j).filter fun y => y.qid = i)
      = q.filter fun y => y.qid = i := by
  rw [List.filter_comm]
  refine List.filter_eq_self.mpr fun a ha => ?_
  have := (List.mem_filter.mp ha).2
  simp at this ⊢
  rw [this]
  exact hij

theorem filter_qid_markProcessing (q : List QueueItem) (j i now : Nat) :
    ((markProcessing q j now).filter fun y => y.qid = i)
      = if i = j then
          (q.filter fun y => y.qid = i).map fun qi =>
            { qi with status := QStatus.processing, attempts := qi.attempts + 1,
                      lastAttempt := some now }
        else q.filter fun y => y.qid = i :=
  filter_qid_map_onId q j i _ fun _ => rfl

theorem filter_qid_failMark (q : List QueueItem) (j i : Nat) (msg : String) :
    ((q.map fun qi =>
        if qi.qid = j then { qi with status := QStatus.failed, errMsg := some msg }
        else qi).filter fun y => y.qid = i)
      = if i = j then
          (q.filter fun y => y.qid = i).map fun qi =>
            { qi with status := QStatus.failed, errMsg := some msg }
        else q.filter fun y => y.qid = i :=
  filter_qid_map_onId q j i _ fun _ => rfl

theorem map_qid_failMark (q : List QueueItem) (j : Nat) (msg : String) :
    ((q.map fun qi =>
        if qi.qid = j then { qi with status := QStatus.failed, errMsg := some msg }
        else qi).map fun y => y.qid) = q.map fun y => y.qid :=
  map_onId_qid q j _ fun _ => rfl

theorem step_filter_qid_other (b : QueueItem → Option String) (now : Nat)
    (acc : List QueueItem) (x : QueueItem) (i : Nat) (hne : ¬ i = x.qid) :
    ((processSinglePushItem b (markProcessing acc x.qid now) x).filter
        fun y => y.qid = i)
      = acc.filter fun y => y.qid = i := by
  unfold processSinglePushItem
  cases hb : b x with
  | none =>
    rw [filter_qid_filter_ne _ _ _ hne, filter_qid_markProcessing, if_neg hne]
  | some msg =>
    rw [filter_qid_failMark, if_neg hne, filter_qid_markProcessing, if_neg hne]

theorem fold_filter_qid_untouched (b : QueueItem → Option String) (now : Nat) :
    ∀ (l acc : List QueueItem) (i : Nat), (∀ x ∈ l, ¬ x.qid = i) →
      ((l.foldl (fun acc x =>
          processSinglePushItem b (markProcessing acc x.qid now) x) acc).filter
        fun y => y.qid = i)
        = acc.filter fun y => y.qid = i := by
  intro l
  induction l with
  | nil => intro acc i _; rfl
  | cons x tl ih =>
    intro acc i h
    rw [List.foldl_cons, ih _ _ (fun y hy => h y (List.mem_cons_of_mem _ hy)),
      step_filter_qid_other _ _ _ _ _ (fun hc => h x (List.mem_cons_self _ _) (hc ▸ rfl))]

theorem step_qid_mem (b : QueueItem → Option String) (now : Nat)
    (acc : List QueueItem) (x : QueueItem) (i : Nat)
    (h1 : i ∈ acc.map fun y => y.qid) (h2 : ¬ (b x = none ∧ x.qid = i)) :
    i ∈ (processSinglePushItem b (markProcessing acc x.qid now) x).map
      fun y => y.qid := by
  unfold processSinglePushItem
  cases hb : b x with
  | none =>
    have hxi : ¬ x.qid = i := fun hc => h2 ⟨hb, hc⟩
    have h1' : i ∈ ((markProcessing acc x.qid now).map fun y => y.qid) := by
      rw [markProcessing_map_qid]
      exact h1
    obtain ⟨y, hy, hyq⟩ := List.mem_map.mp h1'
    refine List.mem_map.mpr ⟨y, List.mem_filter.mpr ⟨hy, ?_⟩, hyq⟩
    simp
    rw [hyq]
    exact fun hc => hxi hc.symm
  | some msg =>
    rw [map_qid_failMark, markProcessing_map_qid]
    exact h1

theorem fold_removal_needs_success (b : QueueItem → Option String) (now : Nat) :
    ∀ (l acc : List QueueItem) (i : Nat),
      i ∈ (acc.map fun y => y.qid) →
      i ∉ ((l.foldl (fun acc x =>
          processSinglePushItem b (markProcessing acc x.qid now) x) acc).map
        fun y => y.qid) →
      ∃ x ∈ l, x.qid = i ∧ b x = none := by
  intro l
  induction l with
  | nil => intro acc i h1 h2; exact absurd h1 h2
  | cons x tl ih =>
    intro acc i h1 h2
    by_cases hx : b x = none ∧ x.qid = i
    · exact ⟨x, List.mem_cons_self _ _, hx.2, hx.1⟩
    · rw [List.foldl_cons] at h2
      obtain ⟨y, hy, hyq, hyb⟩ := ih _ i (step_qid_mem b now acc x i h1 hx) h2
      exact ⟨y, List.mem_cons_of_mem _ hy, hyq, hyb⟩

theorem processSingle_fail (b : QueueItem → Option String)
    (M : List QueueItem) (item : QueueItem) (msg : String)
    (hb : b item = some msg) :
    processSinglePushItem b M item
      = M.map fun qi =>
          if qi.qid = item.qid then
            { qi with status := QStatus.failed, errMsg := some msg }
          else qi := by
  unfold processSinglePushItem
  rw [hb]

/-- C2: for an entry enqueued by `enqueueChange` (attempt count 0, status
`pending`), one `processPushQueue` pass with a backend that confirms the
remote write removes the entry from the queue; a backend that fails leaves
exactly one entry for it, with attempt count incremented to 1, status
`failed` and the error recorded; and — for any backend — an entry id only
ever disappears from the queue if the backend confirmed remote success for
that entry. -/
theorem push_queue_pass_spec (q : List QueueItem) (qid : Nat) (itemId : String)
    (action : QAction) (tEnq now : Nat)
    (hnodup : (((enqueueChange q qid itemId action tEnq)).map fun y => y.qid).Nodup) :
    (∀ b : QueueItem → Option String,
      b ⟨qid, itemId, action, tEnq, 0, none, .pending, none⟩ = none →
      ∀ y ∈ processPushQueue b now (enqueueChange q qid itemId action tEnq),
        y.qid ≠ qid)
    ∧ (∀ (b : QueueItem → Option String) (msg : String),
        b ⟨qid, itemId, action, tEnq, 0, none, .pending, none⟩ = some msg →
        ((processPushQueue b now (enqueueChange q qid itemId action tEnq)).filter
            fun y => y.qid = qid)
          = [⟨qid, itemId, action, tEnq, 1, some now, .failed, some msg⟩])
    ∧ (∀ (b : QueueItem → Option String) (i : Nat),
        i ∈ ((enqueueChange q qid itemId action tEnq).map fun y => y.qid) →
        i ∉ ((processPushQueue b now (enqueueChange q qid itemId action tEnq)).map
              fun y => y.qid) →
        ∃ x ∈ enqueueChange q qid itemId action tEnq, x.qid = i ∧ b x = none) := by
  have hq' : enqueueChange q qid itemId action tEnq
      = q ++ [⟨qid, itemId, action, tEnq, 0, none, .pending, none⟩] := rfl
  have hfold : ∀ b : QueueItem → Option String,
      processPushQueue b now
          (q ++ [⟨qid, itemId, action, tEnq, 0, none, .pending, none⟩])
        = processSinglePushItem b
            (markProcessing
              (q.foldl (fun acc x =>
                  processSinglePushItem b (markProcessing acc x.qid now) x)
                (q ++ [⟨qid, itemId, action, tEnq, 0, none, .pending, none⟩]))
              qid now)
            ⟨qid, itemId, action, tEnq, 0, none, .pending, none⟩ := by
    intro b
    unfold processPushQueue
    rw [List.foldl_append]
    rfl
  refine ⟨?_, ?_, ?_⟩
  · intro b hbe y hy
    rw [hq', hfold b] at hy
    unfold processSinglePushItem at hy
    simp only [hbe] at hy
    simpa using (List.mem_filter.mp hy).2
  · intro b msg hbe
    have hq : ∀ x ∈ q, ¬ x.qid = qid := by
      intro x hx hc
      rw [hq', List.map_append] at hnodup
      rcases List.nodup_append.mp hnodup with ⟨_, _, hdisj⟩
      exact hdisj (List.mem_map.mpr ⟨x, hx, hc⟩) (by simp)
    rw [hq', hfold b, processSingle_fail b _ _ msg hbe]
    rw [filter_qid_failMark, if_pos rfl, filter_qid_markProcessing, if_pos rfl]
    have hacc : ((q.foldl (fun acc x =>
          processSinglePushItem b (markProcessing acc x.qid now) x)
        (q ++ [⟨qid, itemId, action, tEnq, 0, none, .pending, none⟩])).filter
          fun y => y.qid = qid)
        = [⟨qid, itemId, action, tEnq, 0, none, .pending, none⟩] := by
      rw [fold_filter_qid_untouched b now q _ qid hq, List.filter_append,
        List.filter_eq_nil_iff.mpr (by intro a ha; simpa using hq a ha)]
      simp
    rw [hacc]
    simp
  · intro b i h1 h2
    exact fold_removal_needs_success b now _ _ i h1 h2

theorem push_queue_pass_spec_witness :
    (((enqueueChange [] 5 "x" .create 1).map fun y => y.qid).Nodup)
    ∧ ((processPushQueue (fun _ => some "boom") 2
          (enqueueChange [] 5 "x" .create 1)).filter fun y => y.qid = 5)
        = [⟨5, "x", .create, 1, 1, some 2, .failed, some "boom"⟩] :=
  ⟨by decide,
   (push_queue_pass_spec [] 5 "x" .create 1 2 (by decide)).2.1
     (fun _ => some "boom") "boom" rfl⟩
